import Mathlib

/-!
Verification of the stress-spectrum generator (stress-spectrum.py).

The program builds a list of fatigue events (equivalent cycle count,
minimum stress, maximum stress, description), scales them by safety
factors and a prestress offset, and serialises them to a text file in
the max-min-cycle format.  Floating-point numbers are embedded as
rationals; the sine-sweep factory uses the real logarithm and is
embedded over the reals.  Fallible operations (interpolation out of
range, reductions over an empty event list) are embedded with Option.
-/

/-- Mirror of the namedtuple Event(neq, s_min, s_max, desc). -/
structure Event (α : Type) where
  neq : α
  s_min : α
  s_max : α
  desc : String
deriving DecidableEq, Repr

/-- Mirror of the StressSpectrum collector state: output filename,
prestress (the attribute is spelled prestres in the source), the two
safety factors, and the ordered event list. -/
structure StressSpectrum where
  filename : String
  prestres : ℚ
  sf_stress : ℚ
  sf_cycles : ℚ
  events : List (Event ℚ)
deriving DecidableEq, Repr

/-- Mirror of StressSpectrum.append: push the event at the end. -/
def StressSpectrum.append (s : StressSpectrum) (e : Event ℚ) : StressSpectrum :=
  ⟨s.filename, s.prestres, s.sf_stress, s.sf_cycles, s.events ++ [e]⟩

/-- Python max over a list: fails on the empty list. -/
def pyMax : List ℚ → Option ℚ
  | [] => none
  | x :: xs => some (xs.foldl max x)

/-- Python min over a list: fails on the empty list. -/
def pyMin : List ℚ → Option ℚ
  | [] => none
  | x :: xs => some (xs.foldl min x)

/-- Mirror of StressSpectrum.stats: peak scaled max stress, peak scaled
min stress, and the rounded-up total number of scaled cycles.  The
min/max reductions fail on an empty event list, as in the source. -/
def StressSpectrum.stats (s : StressSpectrum) : Option (ℚ × ℚ × ℤ) :=
  match pyMax (s.events.map fun e => e.s_max), pyMin (s.events.map fun e => e.s_min) with
  | some mx, some mn =>
      some (s.sf_stress * mx + s.prestres, s.sf_stress * mn + s.prestres,
        ⌈s.sf_cycles * (s.events.map fun e => e.neq).sum⌉)
  | _, _ => none

/-- Round 100*x to the nearest integer, ties to even, matching the
fixed-point rendering of a two-decimal format of an exactly
representable value. -/
def rnd2 (x : ℚ) : ℤ :=
  let y := 100 * x
  let n := ⌊y⌋
  if y - n < 1/2 then n
  else if 1/2 < y - n then n + 1
  else if n % 2 = 0 then n else n + 1

/-- Two-digit zero-padded rendering of a number below 100. -/
def pad2 (m : ℕ) : String :=
  if m < 10 then "0" ++ toString m else toString m

/-- Mirror of the Python format spec 4.2f: fixed two decimal digits
(minimum width 4 never pads, since d.dd already has four characters). -/
def fmt2 (x : ℚ) : String :=
  let n := (rnd2 |x|).toNat
  (if x < 0 then "-" else "") ++ toString (n / 100) ++ "." ++ pad2 (n % 100)

/-- One data line of StressSpectrum.save: scaled max stress, two
spaces, scaled min stress, two spaces, rounded-up scaled cycles. -/
def eventLine (sf_stress sf_cycles prestres : ℚ) (e : Event ℚ) : String :=
  fmt2 (sf_stress * e.s_max + prestres) ++ "  " ++
    fmt2 (sf_stress * e.s_min + prestres) ++ "  " ++
    toString (⌈sf_cycles * e.neq⌉ : ℤ)

/-- The lines StressSpectrum.save writes: the literal header followed
by one line per event in append order. -/
def saveLines (s : StressSpectrum) : List String :=
  "max min cycle format" :: s.events.map (eventLine s.sf_stress s.sf_cycles s.prestres)

/-- The full file content written by StressSpectrum.save: every line,
including the last, is terminated by a newline. -/
def saveFile (s : StressSpectrum) : String :=
  String.join ((saveLines s).map (fun l => l ++ "\n"))

/-- Mirror of StressSpectrum.save as a state transformer: it reads the
collector and replaces the file content wholesale (mode w truncates);
the method body assigns no attribute, so the collector is returned
unchanged. -/
def StressSpectrum.save (s : StressSpectrum) (_fileBefore : String) :
    StressSpectrum × String :=
  (s, saveFile s)

/-- Piecewise-linear evaluation over a key-sorted list of points, in
the manner of scipy interp1d: fails below the first key, above the
last key, or with fewer than two points. -/
def interpSeg : List (ℚ × ℚ) → ℚ → Option ℚ
  | p :: q :: rest, a =>
      if a < p.1 then none
      else if a ≤ q.1 then some (p.2 + (q.2 - p.2) * (a - p.1) / (q.1 - p.1))
      else interpSeg (q :: rest) a
  | _, _ => none

/-- Insertion step of sorting the table points by key. -/
def insertPair (p : ℚ × ℚ) : List (ℚ × ℚ) → List (ℚ × ℚ)
  | [] => [p]
  | q :: rest => if p.1 ≤ q.1 then p :: q :: rest else q :: insertPair p rest

/-- Sort the table points by key, mirroring sorted(table.keys()). -/
def sortPairs : List (ℚ × ℚ) → List (ℚ × ℚ)
  | [] => []
  | p :: rest => insertPair p (sortPairs rest)

/-- Mirror of linear_interpolation: sort the table by key and evaluate
the piecewise-linear interpolant, failing outside the key range. -/
def linear_interpolation (table : List (ℚ × ℚ)) (argument : ℚ) : Option ℚ :=
  interpSeg (sortPairs table) argument

/-- The fixed NASGRO appendix G table from RandomEvent. -/
def table_n : List (ℚ × ℚ) :=
  [(2, 222/1000), (3, 139/1000), (4, 99/1000), (5, 77/1000), (6, 66/1000)]

/-- Mirror of RandomEvent: equivalent cycles from random vibration,
rounding up fn * duration * interpolated coefficient; fails when the
interpolation fails. -/
def RandomEvent (stress fn duration n : ℚ) (desc : String) : Option (Event ℚ) :=
  match linear_interpolation table_n n with
  | none => none
  | some c => some ⟨((⌈fn * duration * c⌉ : ℤ) : ℚ), -stress, stress, desc⟩

/-- Mirror of SineEvent: cycles spent sweeping the 20 to 100 Hz band
at the given octave-per-minute rate, over the reals because of the
natural logarithm. -/
noncomputable def SineEvent (stress_1g load sweep_rate : ℝ) (desc : String) : Event ℝ :=
  let df : ℝ := 100 - 20
  let neq : ℝ := ((⌈60 / (sweep_rate * Real.log 2) * df⌉ : ℤ) : ℝ)
  let stress := load * stress_1g
  ⟨neq, -stress, stress, desc⟩

/-- Mirror of ThermalEvent: stresses proportional to the temperature
deltas from the reference temperature, cycles passed through. -/
def ThermalEvent (stress_1K T_max T_min neq T_ref : ℚ) (desc : String) : Event ℚ :=
  ⟨neq, stress_1K * (T_min - T_ref), stress_1K * (T_max - T_ref), desc⟩

/-- Unfolding equation for interpSeg on a list with two or more points. -/
theorem interpSeg_cons₂ (p q : ℚ × ℚ) (rest : List (ℚ × ℚ)) (a : ℚ) :
    interpSeg (p :: q :: rest) a =
      if a < p.1 then none
      else if a ≤ q.1 then some (p.2 + (q.2 - p.2) * (a - p.1) / (q.1 - p.1))
      else interpSeg (q :: rest) a := rfl

/-- When the argument is beyond the first two keys, interpSeg steps past
the head point. -/
theorem interpSeg_cons_of_gt (r s : ℚ × ℚ) (rest : List (ℚ × ℚ)) (a : ℚ)
    (hr : r.1 < a) (hs : s.1 < a) :
    interpSeg (r :: s :: rest) a = interpSeg (s :: rest) a := by
  rw [interpSeg_cons₂, if_neg (not_lt.2 hr.le), if_neg (not_le.2 hs)]

/-- Sorting a list of points already strictly sorted by key is the identity. -/
theorem sortPairs_eq_self (l : List (ℚ × ℚ)) (h : l.Pairwise (fun u v => u.1 < v.1)) :
    sortPairs l = l := by
  induction l with
  | nil => rfl
  | cons p rest ih =>
    rw [List.pairwise_cons] at h
    rw [sortPairs, ih h.2]
    cases rest with
    | nil => rfl
    | cons q t =>
      have : p.1 ≤ q.1 := (h.1 q (by simp)).le
      simp [insertPair, this]

/-- interpSeg evaluated at any table key returns the stored value. -/
theorem interpSeg_at_mem :
    ∀ l : List (ℚ × ℚ), l.Pairwise (fun u v => u.1 < v.1) →
      2 ≤ l.length → ∀ xy ∈ l, interpSeg l xy.1 = some xy.2 := by
  intro l
  induction l with
  | nil => intro _ h2; simp at h2
  | cons p rest ih =>
    cases rest with
    | nil => intro _ h2; simp at h2
    | cons q t =>
      intro hs _ xy hxy
      have hpq : p.1 < q.1 := (List.pairwise_cons.1 hs).1 q (by simp)
      rcases List.mem_cons.1 hxy with hxp | hxy'
      · subst hxp
        rw [interpSeg_cons₂, if_neg (lt_irrefl xy.1), if_pos hpq.le]
        congr 1
        simp
      · rcases List.mem_cons.1 hxy' with hxq | hxt
        · subst hxq
          rw [interpSeg_cons₂, if_neg (not_lt.2 hpq.le), if_pos le_rfl]
          have hne : xy.1 - p.1 ≠ 0 := sub_ne_zero.2 (ne_of_gt hpq)
          congr 1
          rw [mul_div_assoc, div_self hne, mul_one]
          ring
        · have hqx : q.1 < xy.1 := (List.pairwise_cons.1 (List.pairwise_cons.1 hs).2).1 xy hxt
          have hpx : p.1 < xy.1 := hpq.trans hqx
          rw [interpSeg_cons_of_gt p q t xy.1 hpx hqx]
          have ht2 : 2 ≤ (q :: t).length := by
            have : 0 < t.length := List.length_pos.2 (List.ne_nil_of_mem hxt)
            simp only [List.length_cons]
            omega
          exact ih (List.pairwise_cons.1 hs).2 ht2 xy hxy'


/-- interpSeg on an argument strictly inside one segment evaluates the
linear interpolant of that segment. -/
theorem interpSeg_between :
    ∀ (l₁ : List (ℚ × ℚ)) (p q : ℚ × ℚ) (l₂ : List (ℚ × ℚ)) (a : ℚ),
      (l₁ ++ p :: q :: l₂).Pairwise (fun u v => u.1 < v.1) → p.1 < a → a < q.1 →
      interpSeg (l₁ ++ p :: q :: l₂) a =
        some (p.2 + (q.2 - p.2) * (a - p.1) / (q.1 - p.1)) := by
  intro l₁
  induction l₁ with
  | nil =>
    intro p q l₂ a _ hlt hgt
    simp only [List.nil_append]
    rw [interpSeg_cons₂, if_neg (not_lt.2 hlt.le), if_pos hgt.le]
  | cons r l₁' ih =>
    intro p q l₂ a hp hlt hgt
    have htail : (l₁' ++ p :: q :: l₂).Pairwise (fun u v => u.1 < v.1) :=
      (List.pairwise_cons.1 hp).2
    have hrp : r.1 < p.1 := (List.pairwise_cons.1 hp).1 p (by simp)
    have hra : r.1 < a := hrp.trans hlt
    cases l₁' with
    | nil =>
      simp only [List.cons_append, List.nil_append]
      rw [interpSeg_cons_of_gt r p (q :: l₂) a hra hlt]
      have := ih p q l₂ a htail hlt hgt
      simpa using this
    | cons s l₁'' =>
      have hsp : s.1 < p.1 := by
        refine (List.pairwise_cons.1 htail).1 p ?_
        simp
      have hsa : s.1 < a := hsp.trans hlt
      simp only [List.cons_append]
      rw [interpSeg_cons_of_gt r s (l₁'' ++ p :: q :: l₂) a hra hsa]
      have := ih p q l₂ a htail hlt hgt
      simpa using this

/-- Claim C4 (amended): over a table of two or more points strictly
sorted by key, linear_interpolation returns the exact stored value at
every key, and for an argument strictly between two adjacent keys it
returns a value weakly between the two bracketing values, strictly
between them whenever those values are distinct (a constant segment
returns the common value instead). -/
theorem claim_C4_interpolation (l : List (ℚ × ℚ))
    (hs : l.Pairwise (fun u v => u.1 < v.1)) :
    (2 ≤ l.length → ∀ xy ∈ l, linear_interpolation l xy.1 = some xy.2) ∧
    (∀ l₁ p q l₂ a, l = l₁ ++ p :: q :: l₂ → p.1 < a → a < q.1 →
      ∃ v, linear_interpolation l a = some v ∧
        (p.2 = q.2 → v = p.2) ∧
        (p.2 < q.2 → p.2 < v ∧ v < q.2) ∧
        (q.2 < p.2 → q.2 < v ∧ v < p.2)) := by
  have hid : sortPairs l = l := sortPairs_eq_self l hs
  constructor
  · intro h2 xy hxy
    unfold linear_interpolation
    rw [hid]
    exact interpSeg_at_mem l hs h2 xy hxy
  · intro l₁ p q l₂ a hl hlt hgt
    have hpq1 : p.1 < q.1 := hlt.trans hgt
    have hd : 0 < q.1 - p.1 := by linarith
    have ht0 : 0 < (a - p.1) / (q.1 - p.1) := div_pos (by linarith) hd
    have ht1 : (a - p.1) / (q.1 - p.1) < 1 := (div_lt_one hd).2 (by linarith)
    refine ⟨p.2 + (q.2 - p.2) * ((a - p.1) / (q.1 - p.1)), ?_, ?_, ?_, ?_⟩
    · unfold linear_interpolation
      rw [hid, hl]
      rw [interpSeg_between l₁ p q l₂ a (hl ▸ hs) hlt hgt]
      rw [mul_div_assoc]
    · intro he
      rw [he]
      ring
    · intro hy
      constructor
      · nlinarith [mul_pos (sub_pos.2 hy) ht0]
      · nlinarith [mul_pos (sub_pos.2 hy) (sub_pos.2 ht1)]
    · intro hy
      constructor
      · nlinarith [mul_pos (sub_pos.2 hy) (sub_pos.2 ht1)]
      · nlinarith [mul_pos (sub_pos.2 hy) ht0]

/-- Claim C4, counterexample to the claim as stated: on the table with
points (0, 1) and (1, 1) the argument 1/2 lies strictly between the
adjacent keys 0 and 1, yet the interpolated value 1 is not strictly
between the two bracketing values, which are both 1. -/
theorem claim_C4_counterexample :
    linear_interpolation [((0 : ℚ), (1 : ℚ)), (1, 1)] (1/2) = some 1 ∧
    ¬∃ v, linear_interpolation [((0 : ℚ), (1 : ℚ)), (1, 1)] (1/2) = some v ∧
      1 < v ∧ v < 1 := by
  constructor
  · norm_num [linear_interpolation, sortPairs, insertPair, interpSeg]
  · rintro ⟨v, _, h1, h2⟩
    linarith

/-- Claim C4, witness: the amended theorem applied to the concrete
sorted table with points (0, 0) and (1, 2), evaluated at the key 1. -/
theorem claim_C4_witness :
    linear_interpolation [((0 : ℚ), (0 : ℚ)), (1, 2)] 1 = some 2 := by
  have h := (claim_C4_interpolation [((0 : ℚ), (0 : ℚ)), (1, 2)]
    (by norm_num [List.pairwise_cons])).1 (by norm_num) (1, 2) (by norm_num)
  simpa using h

/-- Membership is preserved by the insertion step. -/
theorem mem_insertPair (x p : ℚ × ℚ) :
    ∀ l : List (ℚ × ℚ), x ∈ insertPair p l ↔ x = p ∨ x ∈ l := by
  intro l
  induction l with
  | nil => simp [insertPair]
  | cons q rest ih =>
    by_cases h : p.1 ≤ q.1
    · simp [insertPair, h]
    · simp [insertPair, h, ih]
      tauto

/-- Sorting the table points does not change their membership. -/
theorem mem_sortPairs (x : ℚ × ℚ) :
    ∀ l : List (ℚ × ℚ), x ∈ sortPairs l ↔ x ∈ l := by
  intro l
  induction l with
  | nil => simp [sortPairs]
  | cons p rest ih => simp [sortPairs, mem_insertPair, ih]

/-- interpSeg fails when the argument is below every key. -/
theorem interpSeg_none_of_lt (a : ℚ) :
    ∀ l : List (ℚ × ℚ), (∀ p ∈ l, a < p.1) → interpSeg l a = none := by
  intro l
  cases l with
  | nil => intro _; rfl
  | cons p rest =>
    cases rest with
    | nil => intro _; rfl
    | cons q t =>
      intro h
      rw [interpSeg_cons₂, if_pos (h p (by simp))]

/-- interpSeg fails when the argument is above every key. -/
theorem interpSeg_none_of_gt (a : ℚ) :
    ∀ l : List (ℚ × ℚ), (∀ p ∈ l, p.1 < a) → interpSeg l a = none := by
  intro l
  induction l with
  | nil => intro _; rfl
  | cons p rest ih =>
    cases rest with
    | nil => intro _; rfl
    | cons q t =>
      intro h
      rw [interpSeg_cons_of_gt p q t a (h p (by simp)) (h q (by simp))]
      exact ih fun r hr => h r (List.mem_cons_of_mem p hr)

/-- Claim C5: linear_interpolation fails (returns none) whenever the
argument is strictly below every table key or strictly above every
table key, and consequently RandomEvent fails for every Paris
exponent n outside the key range [2, 6] of the fixed table. -/
theorem claim_C5_out_of_range (table : List (ℚ × ℚ)) (a : ℚ)
    (h : (∀ p ∈ table, a < p.1) ∨ (∀ p ∈ table, p.1 < a))
    (stress fn duration n : ℚ) (d : String) (hn : n < 2 ∨ 6 < n) :
    linear_interpolation table a = none ∧
    RandomEvent stress fn duration n d = none := by
  constructor
  · unfold linear_interpolation
    rcases h with h | h
    · exact interpSeg_none_of_lt a _ fun p hp => h p ((mem_sortPairs p table).1 hp)
    · exact interpSeg_none_of_gt a _ fun p hp => h p ((mem_sortPairs p table).1 hp)
  · have hkeys : linear_interpolation table_n n = none := by
      unfold linear_interpolation
      rcases hn with hn | hn
      · refine interpSeg_none_of_lt n _ fun p hp => ?_
        have hp' : p ∈ table_n := (mem_sortPairs p table_n).1 hp
        have : p.1 = 2 ∨ p.1 = 3 ∨ p.1 = 4 ∨ p.1 = 5 ∨ p.1 = 6 := by
          simp only [table_n, List.mem_cons, List.not_mem_nil, or_false] at hp'
          rcases hp' with h | h | h | h | h <;> rw [h]
          · left; rfl
          · right; left; rfl
          · right; right; left; rfl
          · right; right; right; left; rfl
          · right; right; right; right; rfl
        rcases this with h | h | h | h | h <;> rw [h] <;> linarith
      · refine interpSeg_none_of_gt n _ fun p hp => ?_
        have hp' : p ∈ table_n := (mem_sortPairs p table_n).1 hp
        have : p.1 = 2 ∨ p.1 = 3 ∨ p.1 = 4 ∨ p.1 = 5 ∨ p.1 = 6 := by
          simp only [table_n, List.mem_cons, List.not_mem_nil, or_false] at hp'
          rcases hp' with h | h | h | h | h <;> rw [h]
          · left; rfl
          · right; left; rfl
          · right; right; left; rfl
          · right; right; right; left; rfl
          · right; right; right; right; rfl
        rcases this with h | h | h | h | h <;> rw [h] <;> linarith
    simp [RandomEvent, hkeys]

/-- Claim C5, witness: the theorem applied to the concrete table with
points (0, 0) and (1, 1) at the argument 2, above both keys, and to
RandomEvent at the out-of-range exponent n = 7. -/
theorem claim_C5_witness :
    linear_interpolation [((0 : ℚ), (0 : ℚ)), (1, 1)] 2 = none ∧
    RandomEvent 1 1 1 7 "" = none := by
  refine claim_C5_out_of_range [((0 : ℚ), (0 : ℚ)), (1, 1)] 2 ?_ 1 1 1 7 "" ?_
  · right
    intro p hp
    simp only [List.mem_cons, List.not_mem_nil, or_false] at hp
    rcases hp with h | h <;> rw [h] <;> norm_num
  · right; norm_num

/-- Claim C2: whenever the fixed table interpolation at exponent n
succeeds with coefficient c, RandomEvent yields the symmetric event
with neq equal to the rounded-up product fn * duration * c, minimum
stress -stress and maximum stress stress. -/
theorem claim_C2_random (stress fn duration n c : ℚ) (d : String)
    (h : linear_interpolation table_n n = some c) :
    RandomEvent stress fn duration n d =
      some ⟨((⌈fn * duration * c⌉ : ℤ) : ℚ), -stress, stress, d⟩ := by
  simp [RandomEvent, h]

/-- Claim C2, witness: at stress 300 * 1.15 = 345, fn 200, duration
120 and exponent 2 the interpolation returns the stored coefficient
0.222 and the factory yields neq 5328, s_min -345 and s_max 345. -/
theorem claim_C2_random_witness :
    linear_interpolation table_n 2 = some (222/1000) ∧
    RandomEvent (300 * (115/100)) 200 120 2 "" = some ⟨5328, -345, 345, ""⟩ := by
  have h : linear_interpolation table_n 2 = some (222/1000) := by
    norm_num [linear_interpolation, table_n, sortPairs, insertPair, interpSeg]
  refine ⟨h, ?_⟩
  rw [claim_C2_random (300 * (115/100)) 200 120 2 (222/1000) "" h]
  norm_num [Event.mk.injEq]

/-- Claim C6: for a nonzero sweep rate, SineEvent yields neq equal to
the rounded-up value of 60 divided by the product of the sweep rate
and the natural logarithm of 2, times the fixed 80 Hz band width,
independent of stress_1g and load, and the symmetric stresses
plus and minus load * stress_1g. -/
theorem claim_C6_sine (stress_1g load sweep_rate : ℝ) (d : String)
    (_h : sweep_rate ≠ 0) :
    (SineEvent stress_1g load sweep_rate d).neq =
        ((⌈(60 / (sweep_rate * Real.log 2) * 80 : ℝ)⌉ : ℤ) : ℝ) ∧
    (SineEvent stress_1g load sweep_rate d).s_min = -(load * stress_1g) ∧
    (SineEvent stress_1g load sweep_rate d).s_max = load * stress_1g := by
  refine ⟨?_, rfl, rfl⟩
  show ((⌈60 / (sweep_rate * Real.log 2) * (100 - 20 : ℝ)⌉ : ℤ) : ℝ) = _
  norm_num

/-- Claim C6, witness: the theorem applied at stress_1g 10, load 2 and
sweep rate 1, whose stresses are plus and minus 20. -/
theorem claim_C6_sine_witness :
    (1 : ℝ) ≠ 0 ∧
    ((SineEvent 10 2 1 "").neq = ((⌈(60 / (1 * Real.log 2) * 80 : ℝ)⌉ : ℤ) : ℝ) ∧
     (SineEvent 10 2 1 "").s_min = -(2 * 10 : ℝ) ∧
     (SineEvent 10 2 1 "").s_max = (2 * 10 : ℝ)) :=
  ⟨one_ne_zero, claim_C6_sine 10 2 1 "" one_ne_zero⟩

/-- Claim C7: ThermalEvent returns the stresses proportional to the
temperature deltas from the reference temperature and passes neq
through unchanged; at stress_1K 10, T_max 50, T_min 0, T_ref 20 and
neq 365 this gives s_min -200, s_max 300, neq 365. -/
theorem claim_C7_thermal (stress_1K T_max T_min neq T_ref : ℚ) (d : String) :
    ThermalEvent stress_1K T_max T_min neq T_ref d =
      ⟨neq, stress_1K * (T_min - T_ref), stress_1K * (T_max - T_ref), d⟩ ∧
    ThermalEvent 10 50 0 365 20 "" = ⟨365, -200, 300, ""⟩ := by
  refine ⟨rfl, ?_⟩
  simp only [ThermalEvent, Event.mk.injEq]
  norm_num

/-- Claim C9: save reads the collector and replaces the file content
wholesale, so the collector state is unchanged, a second save with no
intervening append writes the identical bytes, and the output does
not depend on the prior file content. -/
theorem claim_C9_save_idempotent (s : StressSpectrum) (f₀ f₁ : String) :
    (s.save f₀).1 = s ∧
    ((s.save f₀).1.save (s.save f₀).2).2 = (s.save f₀).2 ∧
    (s.save f₁).2 = (s.save f₀).2 :=
  ⟨rfl, rfl, rfl⟩

/-- Claim C10: every event produced by RandomEvent or SineEvent has an
integral neq, because the ceiling is applied inside the factory, so
the later rounded scaling with a cycle factor of 1 returns the same
integer. -/
theorem claim_C10_integral_neq (stress fn duration n : ℚ) (d : String) (e : Event ℚ)
    (h : RandomEvent stress fn duration n d = some e)
    (s1g load rate : ℝ) (d₂ : String) :
    (∃ k : ℤ, e.neq = (k : ℚ) ∧ (⌈(1 : ℚ) * e.neq⌉ : ℤ) = k) ∧
    (∃ m : ℤ, (SineEvent s1g load rate d₂).neq = (m : ℝ) ∧
      (⌈(1 : ℝ) * (SineEvent s1g load rate d₂).neq⌉ : ℤ) = m) := by
  constructor
  · unfold RandomEvent at h
    cases hl : linear_interpolation table_n n with
    | none => rw [hl] at h; cases h
    | some c =>
      rw [hl] at h
      have he := Option.some.inj h
      refine ⟨⌈fn * duration * c⌉, ?_, ?_⟩
      · rw [← he]
      · rw [← he]
        simp [Int.ceil_intCast]
  · refine ⟨⌈60 / (rate * Real.log 2) * (100 - 20 : ℝ)⌉, rfl, ?_⟩
    show (⌈(1 : ℝ) * ((⌈60 / (rate * Real.log 2) * (100 - 20 : ℝ)⌉ : ℤ) : ℝ)⌉ : ℤ) = _
    simp [Int.ceil_intCast]

/-- Claim C10, witness: the theorem applied to the concrete random
event with neq 5328 and the concrete sine event at sweep rate 1. -/
theorem claim_C10_witness :
    (∃ k : ℤ, (Event.mk (5328 : ℚ) (-345) 345 "").neq = (k : ℚ) ∧
      (⌈(1 : ℚ) * (Event.mk (5328 : ℚ) (-345) 345 "").neq⌉ : ℤ) = k) ∧
    (∃ m : ℤ, (SineEvent 10 2 1 "").neq = (m : ℝ) ∧
      (⌈(1 : ℝ) * (SineEvent 10 2 1 "").neq⌉ : ℤ) = m) := by
  refine claim_C10_integral_neq 345 200 120 2 "" ⟨5328, -345, 345, ""⟩ ?_ 10 2 1 ""
  have h : linear_interpolation table_n 2 = some (222/1000) := by
    norm_num [linear_interpolation, table_n, sortPairs, insertPair, interpSeg]
  simp only [RandomEvent, h]
  norm_num [Event.mk.injEq]

/-- Claim C3 (amended): on a collector with no events, stats fails on
the min/max reduction over the empty event sequence, while save
succeeds and writes a file holding only the header line. -/
theorem claim_C3_empty_spectrum (s : StressSpectrum) (h : s.events = []) :
    s.stats = none ∧ saveFile s = "max min cycle format\n" := by
  constructor
  · simp [StressSpectrum.stats, h, pyMax, pyMin]
  · have hl : saveLines s = ["max min cycle format"] := by simp [saveLines, h]
    rw [saveFile, hl]
    rfl

/-- Claim C3, counterexample to the claim as stated: on the concrete
empty collector, stats indeed fails, but save does not fail: its
output is the well-defined file holding exactly the header line. -/
theorem claim_C3_counterexample :
    StressSpectrum.stats ⟨"example.spc", 0, 1, 4, []⟩ = none ∧
    saveFile ⟨"example.spc", 0, 1, 4, []⟩ = "max min cycle format\n" := by
  exact ⟨rfl, rfl⟩

/-- Claim C3, witness: the amended theorem applied to a concrete
collector with an empty event list. -/
theorem claim_C3_witness :
    StressSpectrum.stats ⟨"a.spc", 10, 1, 4, []⟩ = none ∧
    saveFile ⟨"a.spc", 10, 1, 4, []⟩ = "max min cycle format\n" :=
  claim_C3_empty_spectrum ⟨"a.spc", 10, 1, 4, []⟩ rfl

/-- The total-cycles component of stats on a nonempty collector. -/
theorem stats_total_eq (s : StressSpectrum) (h : s.events ≠ []) :
    s.stats.map (fun r => r.2.2) =
      some ⌈s.sf_cycles * ((s.events.map fun e => e.neq).sum)⌉ := by
  obtain ⟨e, es, hev⟩ := List.exists_cons_of_ne_nil h
  simp [StressSpectrum.stats, hev, pyMax, pyMin]

/-- Claim C8: on every nonempty collector the total-cycles value of
stats equals the rounded-up product of the cycle factor with the sum
of neq over all events, and the value is unchanged under any
permutation of the append order. -/
theorem claim_C8_total_cycles (s t : StressSpectrum)
    (hne : s.events ≠ []) (hperm : s.events.Perm t.events)
    (hc : s.sf_cycles = t.sf_cycles) :
    s.stats.map (fun r => r.2.2) =
      some ⌈s.sf_cycles * ((s.events.map fun e => e.neq).sum)⌉ ∧
    t.stats.map (fun r => r.2.2) = s.stats.map (fun r => r.2.2) := by
  have h1 := stats_total_eq s hne
  have hne' : t.events ≠ [] := by
    intro h0
    rw [h0] at hperm
    exact hne hperm.eq_nil
  have h2 := stats_total_eq t hne'
  have hsum : ((t.events.map fun e => e.neq).sum) = ((s.events.map fun e => e.neq).sum) :=
    ((hperm.map fun e => e.neq).symm).sum_eq
  refine ⟨h1, ?_⟩
  rw [h2, h1, hsum, hc]

/-- Claim C8, witness: the theorem applied to two concrete two-event
collectors whose event lists are permutations of each other. -/
theorem claim_C8_witness :
    (StressSpectrum.mk "f" 0 1 4 [⟨1, -1, 1, "a"⟩, ⟨2, -2, 2, "b"⟩]).stats.map
        (fun r => r.2.2) =
      some ⌈(StressSpectrum.mk "f" 0 1 4 [⟨1, -1, 1, "a"⟩, ⟨2, -2, 2, "b"⟩]).sf_cycles *
        (((StressSpectrum.mk "f" 0 1 4 [⟨1, -1, 1, "a"⟩, ⟨2, -2, 2, "b"⟩]).events.map
          fun e => e.neq).sum)⌉ ∧
    (StressSpectrum.mk "g" 0 1 4 [⟨2, -2, 2, "b"⟩, ⟨1, -1, 1, "a"⟩]).stats.map
        (fun r => r.2.2) =
      (StressSpectrum.mk "f" 0 1 4 [⟨1, -1, 1, "a"⟩, ⟨2, -2, 2, "b"⟩]).stats.map
        (fun r => r.2.2) :=
  claim_C8_total_cycles _ _ (by simp) (List.Perm.swap _ _ _) rfl

/-- Claim C1: the file written by save starts with the literal header
line, the data line for the i-th appended event holds the scaled
maximum stress and scaled minimum stress, each with two decimal
digits and two spaces between fields, followed by the rounded-up
scaled cycle count; on the collector with stress factor 2, cycle
factor 1, prestress 5 and the single event (10, -10, 10), the data
line is 25.00 followed by -15.00 followed by 10. -/
theorem claim_C1_save_format (s : StressSpectrum) (i : ℕ) (hi : i < s.events.length) :
    (saveLines s).head? = some "max min cycle format" ∧
    (saveLines s)[i + 1]? =
      some (fmt2 (s.sf_stress * (s.events[i]).s_max + s.prestres) ++ "  " ++
        fmt2 (s.sf_stress * (s.events[i]).s_min + s.prestres) ++ "  " ++
        toString (⌈s.sf_cycles * (s.events[i]).neq⌉ : ℤ)) ∧
    saveLines ⟨"f", 5, 2, 1, [⟨10, -10, 10, ""⟩]⟩ =
      ["max min cycle format", "25.00  -15.00  10"] := by
  refine ⟨rfl, ?_, ?_⟩
  · show ("max min cycle format" ::
      s.events.map (eventLine s.sf_stress s.sf_cycles s.prestres))[i + 1]? = _
    rw [List.getElem?_cons_succ, List.getElem?_map, List.getElem?_eq_getElem hi]
    rfl
  · simp only [saveLines, List.map, eventLine]
    norm_num [fmt2, rnd2, pad2]
    rfl

/-- Claim C1, witness: the theorem applied to the concrete one-event
collector of the round-trip example. -/
theorem claim_C1_witness :
    saveLines ⟨"f", 5, 2, 1, [⟨10, -10, 10, ""⟩]⟩ =
      ["max min cycle format", "25.00  -15.00  10"] :=
  (claim_C1_save_format ⟨"f", 5, 2, 1, [⟨10, -10, 10, ""⟩]⟩ 0 (by simp)).2.2
